import Mathlib

/-!
# Verification of the `nearestdots` storage core

This file gives a shallow embedding of the `storage` package of the
`kdrake/nearestdots` repository (the `DriverStorage` entity store with its
spatial index, per-driver LRU history cache and TTL sweep, plus the haversine
`Distance` utility), and proves or refutes the specified properties.

Modelling decisions:

* Go pointers to `Driver` objects are modelled as references (`Ref := Nat`)
  into an explicit heap (`Heap := List DriverObj`); allocation appends,
  in-place mutation is `heapSet`.  Pointer identity is observable, which the
  source relies on (the r-tree deletes by object identity).
* `float64` coordinates are modelled as `ℚ` for the store (only equality and
  order are used there) and as `ℝ` for the `Distance` utility (where the
  the trigonometric formula itself is in question).
* The Go `map[int]*Driver` is an association list with Go-map semantics:
  lookup finds the unique binding, insert replaces, delete removes the key.
* `time.Now().UnixNano()` is passed in as an explicit `now : Int` argument.
* A Go `nil`-pointer dereference (which the source can reach) is modelled as
  an explicit `panicked` outcome rather than an ordinary error return.
-/

namespace NearestDots

/-- `Location` from the source: a latitude/longitude pair (`float64` fields,
modelled as `ℚ`). -/
structure Location where
  lat : ℚ
  lon : ℚ
deriving DecidableEq

/-- Heap references standing for Go pointers `*Driver`. -/
abbrev Ref := Nat

/-- Modelled from the spec: the repository's `storage/lru` package is not in
the sources; per §4.3 a `HistoryCache` is a fixed-capacity recency buffer:
`Add(timestamp, position)` appends the newest sample and evicts the oldest
sample once capacity is exceeded. -/
structure LRU where
  size : Int
  items : List (Int × Location)
deriving DecidableEq

/-- Modelled from the spec: `lru.New(size)` fails exactly on a non-positive
capacity (§7: `ConfigurationError` — "invalid construction parameters (e.g.,
non-positive history capacity)"). -/
def lruNew (size : Int) : Except String LRU :=
  if size ≤ 0 then .error "must provide a positive size" else .ok ⟨size, []⟩

/-- Modelled from the spec: `Add` inserts the newest `(timestamp, position)`
sample; if capacity is exceeded the oldest sample is evicted (§4.3). -/
def lruAdd (c : LRU) (t : Int) (p : Location) : LRU :=
  let items := c.items ++ [(t, p)]
  if c.size < (items.length : Int) then ⟨c.size, items.tail⟩ else ⟨c.size, items⟩

/-- The contents of a `Driver` heap object: `ID`, `LastLocation`,
`Expiration` and the `Locations` LRU pointer (`none` models a Go `nil`
`*lru.LRU`, the zero value a caller-constructed `Driver` carries). -/
structure DriverObj where
  id : Int
  lastLocation : Location
  expiration : Int
  locations : Option LRU
deriving DecidableEq

/-- The heap of allocated `Driver` objects; `Ref` `r` is valid iff `r` is an
index into the list. -/
abbrev Heap := List DriverObj

/-- Dereference a pointer: `none` models a dangling/nil pointer. -/
def heapGet : Heap → Ref → Option DriverObj
  | [], _ => none
  | o :: _, 0 => some o
  | _ :: rest, r + 1 => heapGet rest r

/-- Mutate the object a pointer refers to in place. -/
def heapSet : Heap → Ref → (DriverObj → DriverObj) → Heap
  | [], _, _ => []
  | o :: rest, 0, f => f o :: rest
  | o :: rest, r + 1, f => o :: heapSet rest r f

/-- `Driver.Expired` from the source: `Expiration == 0` is the never-expires
sentinel, otherwise expired iff `now > Expiration`. -/
def driverExpired (o : DriverObj) (now : Int) : Bool :=
  if o.expiration = 0 then false else decide (o.expiration < now)

/-- Go-map lookup `s.drivers[id]`. -/
def mapLookup : List (Int × Ref) → Int → Option Ref
  | [], _ => none
  | p :: rest, k => if p.1 = k then some p.2 else mapLookup rest k

/-- Go-map assignment `s.drivers[k] = v`: replaces the existing binding for
`k` or appends a new one. -/
def mapInsert : List (Int × Ref) → Int → Ref → List (Int × Ref)
  | [], k, v => [(k, v)]
  | p :: rest, k, v => if p.1 = k then (k, v) :: rest else p :: mapInsert rest k v

/-- Go-map deletion `delete(s.drivers, k)`. -/
def mapDelete (m : List (Int × Ref)) (k : Int) : List (Int × Ref) :=
  m.filter (fun p => decide (p.1 ≠ k))

/-- Modelled from the spec: the `rtreego` spatial index is an imported
library; per §4.2 it stores, per inserted entity, a small bounding box
centred on the entity's position at insertion time, deletes by object
identity (reporting success), and answers k-nearest queries under the
planar metric over raw degrees.  An entry records the inserted pointer and
the box centre captured at insertion. -/
structure SpatialIndex where
  entries : List (Ref × Location)
deriving DecidableEq

/-- `Insert(d)`: adds one bounding box, centred on `d`'s location at the
moment of insertion. -/
def indexInsert (idx : SpatialIndex) (r : Ref) (center : Location) : SpatialIndex :=
  ⟨idx.entries ++ [(r, center)]⟩

/-- Remove the first entry holding exactly the pointer `r`. -/
def removeRef : List (Ref × Location) → Ref → List (Ref × Location)
  | [], _ => []
  | e :: rest, r => if e.1 = r then rest else e :: removeRef rest r

/-- `Delete(d)`: removes the box that corresponds to this specific object by
identity (§4.2), returning whether removal succeeded. -/
def indexDelete (idx : SpatialIndex) (r : Ref) : Bool × SpatialIndex :=
  if idx.entries.any (fun e => e.1 = r) then (true, ⟨removeRef idx.entries r⟩)
  else (false, idx)

/-- Distance from query coordinate `q` to the interval
`[c - 1/100, c + 1/100]` on one axis (the `ToRect(0.01)` box). -/
def axisDist (q c : ℚ) : ℚ :=
  if q < c - 1/100 then c - 1/100 - q
  else if c + 1/100 < q then q - (c + 1/100) else 0

/-- Squared planar distance from a query point to an index entry's bounding
box — the index's native metric over raw degree values (§4.2). -/
def minDistSq (p : Location) (c : Location) : ℚ :=
  axisDist p.lat c.lat ^ 2 + axisDist p.lon c.lon ^ 2

/-- "Entry `a` is at most as far from `p` as entry `b`" under the index's
native metric: the comparison `NearestNeighbors` orders by. -/
def distLE (p : Location) (a b : Ref × Location) : Prop :=
  minDistSq p a.2 ≤ minDistSq p b.2

instance (p : Location) : DecidableRel (distLE p) := fun a b =>
  inferInstanceAs (Decidable (minDistSq p a.2 ≤ minDistSq p b.2))

instance (p : Location) : IsTotal (Ref × Location) (distLE p) :=
  ⟨fun a b => le_total (minDistSq p a.2) (minDistSq p b.2)⟩

instance (p : Location) : IsTrans (Ref × Location) (distLE p) :=
  ⟨fun _ _ _ h h' => le_trans h h'⟩

/-- `DriverStorage` from the source: the entity map, the spatial index and
the history capacity handed to each new driver's LRU. -/
structure DriverStorage where
  drivers : List (Int × Ref)
  locations : SpatialIndex
  lruSize : Int
deriving DecidableEq

/-- `New(lruSize)`: fresh empty storage; note that it performs no validation
of `lruSize` and cannot fail. -/
def newStorage (lruSize : Int) : DriverStorage :=
  { drivers := [], locations := ⟨[]⟩, lruSize := lruSize }

/-- Outcome of `Set`: the returned `error` is `nil` (`ok`), a wrapped LRU
construction error (`errored`), or the call dies on a nil dereference
(`panicked`). -/
inductive SetResult where
  | ok
  | errored (msg : String)
  | panicked
deriving DecidableEq

/-- `true` exactly on `errored`: `Set` returned a non-nil error. -/
def SetResult.isError : SetResult → Bool
  | .errored _ => true
  | _ => false

/-- Result of running `Set`: the returned error, the updated storage and the
updated heap. -/
structure SetOut where
  res : SetResult
  store : DriverStorage
  heap : Heap
deriving DecidableEq

/-- The tail of `Set` shared by both branches, operating on `d` (at `dref`)
and `driver` (at `vr`), transcribing:
`d.LastLocation = driver.LastLocation;`
`d.Locations.Add(time.Now().UnixNano(), d.LastLocation);`
`d.Expiration = driver.Expiration;`
`s.drivers[driver.ID] = driver; return nil`.
A nil `d` or a nil `d.Locations` dereference panics. -/
def setTail (s : DriverStorage) (h : Heap) (dref vr : Ref) (now : Int) : SetOut :=
  let newLoc := ((heapGet h vr).map (fun o => o.lastLocation)).getD ⟨0, 0⟩
  let h1 := heapSet h dref (fun o => { o with lastLocation := newLoc })
  match heapGet h1 dref with
  | none => ⟨.panicked, s, h1⟩
  | some d1 =>
    match d1.locations with
    | none => ⟨.panicked, s, h1⟩
    | some cache =>
      let h2 := heapSet h1 dref
        (fun o => { o with locations := some (lruAdd cache now o.lastLocation) })
      let newExp := ((heapGet h2 vr).map (fun o => o.expiration)).getD 0
      let h3 := heapSet h2 dref (fun o => { o with expiration := newExp })
      let key := ((heapGet h3 vr).map (fun o => o.id)).getD 0
      ⟨.ok, { s with drivers := mapInsert s.drivers key vr }, h3⟩

/-- `Set` from the source, called — as every caller in the repository does —
with a freshly allocated `&Driver{ID: id, LastLocation: loc, Expiration: exp}`
(whose `Locations` field is the nil zero value).  The fresh object lives at
`vr`.  If the ID is absent, a new LRU is allocated (failure is returned
wrapped, leaving the storage untouched), `d.Locations` is set and `d` is
inserted into the index; then the shared tail runs with `d = driver`.
If the ID is present, the tail runs with `d` the old mapped object — and
the final `s.drivers[driver.ID] = driver` stores the *new* object. -/
def setOp (s : DriverStorage) (h : Heap) (id : Int) (loc : Location)
    (exp : Int) (now : Int) : SetOut :=
  let vr : Ref := h.length
  let h0 : Heap := h ++ [⟨id, loc, exp, none⟩]
  match mapLookup s.drivers id with
  | none =>
    match lruNew s.lruSize with
    | .error e => ⟨.errored ("could not create LRU: " ++ e), s, h0⟩
    | .ok cache =>
      let h1 := heapSet h0 vr (fun o => { o with locations := some cache })
      let s1 := { s with locations := indexInsert s.locations vr loc }
      setTail s1 h1 vr vr now
  | some dref => setTail s h0 dref vr now

/-- Outcome of `Delete`: `nil`, `ErrDriverDoesNotExist`, the distinct
`could not remove item` error, or a nil-pointer panic. -/
inductive DelResult where
  | ok
  | notFound
  | removeFailed
  | panicked
deriving DecidableEq

/-- Result of running `Delete`: the returned error and the updated storage
(the heap is never mutated by `Delete`). -/
structure DelOut where
  res : DelResult
  store : DriverStorage
deriving DecidableEq

/-- `Delete` from the source: absent id returns `ErrDriverDoesNotExist`;
otherwise the mapped object is deleted from the index by identity, and only
on success is the map entry `delete(s.drivers, driver.ID)` removed; an index
miss returns the distinct `could not remove item` error. -/
def deleteOp (s : DriverStorage) (h : Heap) (id : Int) : DelOut :=
  match mapLookup s.drivers id with
  | none => ⟨.notFound, s⟩
  | some dref =>
    match heapGet h dref with
    | none => ⟨.panicked, s⟩
    | some o =>
      let del := indexDelete s.locations dref
      if del.1 then
        ⟨.ok, { s with drivers := mapDelete s.drivers o.id, locations := del.2 }⟩
      else ⟨.removeFailed, s⟩

/-- `Get` from the source: returns the mapped pointer, or `none` standing
for the `ErrDriverDoesNotExist` failure. -/
def getOp (s : DriverStorage) (id : Int) : Option Ref :=
  mapLookup s.drivers id

/-- Modelled from the spec: `NearestNeighbors(k, point)` of the imported
r-tree returns up to `k` entries closest to the point under the native
planar metric, in ascending order (§4.2, §9: the `min(k, population)`
sorted-by-distance contract is the specified behaviour). -/
def nearestEntries (s : DriverStorage) (k : Nat) (p : Location) : List (Ref × Location) :=
  (List.insertionSort (distLE p) s.locations.entries).take k

/-- `Nearest` from the source: queries the index and collects the non-nil
results (the model produces no nil padding, so the filter keeps every
entry); the returned pointers are the stored `*Driver`s. -/
def storageNearest (s : DriverStorage) (k : Nat) (p : Location) : List Ref :=
  (nearestEntries s k p).map Prod.fst

/-- One step of `DeleteExpired`'s loop body for the map entry `p`: if the
mapped driver is expired it is deleted from the index, and only on index
success from the map. -/
def sweepStep (h : Heap) (now : Int) (acc : DriverStorage) (p : Int × Ref) : DriverStorage :=
  match heapGet h p.2 with
  | none => acc
  | some o =>
    if driverExpired o now then
      let del := indexDelete acc.locations p.2
      if del.1 then
        { acc with drivers := mapDelete acc.drivers o.id, locations := del.2 }
      else acc
    else acc

/-- `DeleteExpired` from the source: iterate over the map entries, evicting
expired drivers from index and map (map eviction only if the index delete
succeeded). -/
def deleteExpired (s : DriverStorage) (h : Heap) (now : Int) : DriverStorage :=
  s.drivers.foldl (sweepStep h now) s

/-- The states reachable through the public interface: a fresh `New` store,
then any sequence of `Set` (with a freshly allocated argument object, as all
callers do), `Delete` and `DeleteExpired` calls. -/
inductive Reachable : DriverStorage × Heap → Prop where
  | init (lruSize : Int) : Reachable (newStorage lruSize, ([] : Heap))
  | set {s h} (id : Int) (loc : Location) (exp now : Int) : Reachable (s, h) →
      Reachable ((setOp s h id loc exp now).store, (setOp s h id loc exp now).heap)
  | del {s h} (id : Int) : Reachable (s, h) → Reachable ((deleteOp s h id).store, h)
  | sweep {s h} (now : Int) : Reachable (s, h) → Reachable (deleteExpired s h now, h)

/-! ## Basic lemmas about the heap, the map and the index -/

theorem heapGet_append_self (h : Heap) (o : DriverObj) :
    heapGet (h ++ [o]) h.length = some o := by
  induction h with
  | nil => rfl
  | cons a t ih => simpa [heapGet] using ih

theorem heapGet_some_lt {h : Heap} {r : Ref} {o : DriverObj}
    (hg : heapGet h r = some o) : r < h.length := by
  induction h generalizing r with
  | nil => simp [heapGet] at hg
  | cons a t ih =>
    cases r with
    | zero => simp
    | succ r => simpa using ih hg

theorem heapGet_append_of_lt {h : Heap} {r : Ref} (h2 : Heap)
    (hr : r < h.length) : heapGet (h ++ h2) r = heapGet h r := by
  induction h generalizing r with
  | nil => simp at hr
  | cons a t ih =>
    cases r with
    | zero => rfl
    | succ r => simpa [heapGet] using ih (by simpa using hr)

theorem heapGet_append_of_some {h : Heap} {r : Ref} {o : DriverObj} (h2 : Heap)
    (hg : heapGet h r = some o) : heapGet (h ++ h2) r = some o := by
  rw [heapGet_append_of_lt h2 (heapGet_some_lt hg)]; exact hg

theorem heapGet_heapSet_self (h : Heap) (r : Ref) (f : DriverObj → DriverObj) :
    heapGet (heapSet h r f) r = (heapGet h r).map f := by
  induction h generalizing r with
  | nil => rfl
  | cons a t ih =>
    cases r with
    | zero => rfl
    | succ r => simpa [heapGet, heapSet] using ih r

theorem heapGet_heapSet_ne (h : Heap) {r r' : Ref} (f : DriverObj → DriverObj)
    (hne : r' ≠ r) : heapGet (heapSet h r f) r' = heapGet h r' := by
  induction h generalizing r r' with
  | nil => rfl
  | cons a t ih =>
    cases r with
    | zero => cases r' with
      | zero => exact absurd rfl hne
      | succ r' => rfl
    | succ r =>
      cases r' with
      | zero => rfl
      | succ r' => simpa [heapGet, heapSet] using ih (fun hc => hne (by rw [hc]))

theorem length_heapSet (h : Heap) (r : Ref) (f : DriverObj → DriverObj) :
    (heapSet h r f).length = h.length := by
  induction h generalizing r with
  | nil => rfl
  | cons a t ih =>
    cases r with
    | zero => rfl
    | succ r => simpa [heapSet] using ih r

theorem heapSet_append_self (h : Heap) (o : DriverObj) (f : DriverObj → DriverObj) :
    heapSet (h ++ [o]) h.length f = h ++ [f o] := by
  induction h with
  | nil => rfl
  | cons a t ih => simpa [heapSet] using ih

theorem mapLookup_mapInsert_self (m : List (Int × Ref)) (k : Int) (v : Ref) :
    mapLookup (mapInsert m k v) k = some v := by
  induction m with
  | nil => simp [mapInsert, mapLookup]
  | cons p t ih =>
    by_cases hp : p.1 = k
    · simp [mapInsert, hp, mapLookup]
    · simp [mapInsert, hp, mapLookup, ih]

theorem mapLookup_mem {m : List (Int × Ref)} {k : Int} {v : Ref}
    (hl : mapLookup m k = some v) : (k, v) ∈ m := by
  induction m with
  | nil => simp [mapLookup] at hl
  | cons p t ih =>
    by_cases hp : p.1 = k
    · simp only [mapLookup, hp, if_true] at hl
      have hpv : p = (k, v) := by
        cases p with
        | mk a b => simp_all
      rw [hpv]
      exact List.mem_cons_self _ _
    · simp only [mapLookup, hp, if_false] at hl
      exact List.mem_cons_of_mem _ (ih hl)

theorem mapLookup_eq_none_iff (m : List (Int × Ref)) (k : Int) :
    mapLookup m k = none ↔ k ∉ m.map Prod.fst := by
  induction m with
  | nil => simp [mapLookup]
  | cons p t ih =>
    by_cases hp : p.1 = k
    · simp [mapLookup, hp]
    · simp [mapLookup, hp, ih, Ne.symm hp]

theorem keys_mapInsert_of_some {m : List (Int × Ref)} {k : Int} {r : Ref} (v : Ref)
    (hl : mapLookup m k = some r) :
    (mapInsert m k v).map Prod.fst = m.map Prod.fst := by
  induction m with
  | nil => simp [mapLookup] at hl
  | cons p t ih =>
    by_cases hp : p.1 = k
    · simp [mapInsert, hp]
    · simp only [mapLookup, hp, if_false] at hl
      simp [mapInsert, hp, ih hl]

theorem keys_mapInsert_of_none {m : List (Int × Ref)} {k : Int} (v : Ref)
    (hl : mapLookup m k = none) :
    (mapInsert m k v).map Prod.fst = m.map Prod.fst ++ [k] := by
  induction m with
  | nil => simp [mapInsert]
  | cons p t ih =>
    by_cases hp : p.1 = k
    · simp [mapLookup, hp] at hl
    · simp only [mapLookup, hp, if_false] at hl
      simp [mapInsert, hp, ih hl]

theorem length_mapInsert_of_some {m : List (Int × Ref)} {k : Int} {r : Ref} (v : Ref)
    (hl : mapLookup m k = some r) : (mapInsert m k v).length = m.length := by
  have := congrArg List.length (keys_mapInsert_of_some v hl)
  simpa using this

theorem length_mapInsert_of_none {m : List (Int × Ref)} {k : Int} (v : Ref)
    (hl : mapLookup m k = none) : (mapInsert m k v).length = m.length + 1 := by
  have := congrArg List.length (keys_mapInsert_of_none v hl)
  simpa using this

theorem mem_mapInsert {m : List (Int × Ref)} {k : Int} {v : Ref} {p : Int × Ref}
    (hp : p ∈ mapInsert m k v) : p = (k, v) ∨ p ∈ m := by
  induction m with
  | nil => simpa [mapInsert] using hp
  | cons q t ih =>
    by_cases hq : q.1 = k
    · simp only [mapInsert, hq, if_true] at hp
      rcases List.mem_cons.mp hp with h | h
      · exact Or.inl h
      · exact Or.inr (List.mem_cons_of_mem _ h)
    · simp only [mapInsert, hq, if_false] at hp
      rcases List.mem_cons.mp hp with h | h
      · exact Or.inr (List.mem_cons.mpr (Or.inl h))
      · rcases ih h with h' | h'
        · exact Or.inl h'
        · exact Or.inr (List.mem_cons_of_mem _ h')

theorem mapLookup_mapDelete_self (m : List (Int × Ref)) (k : Int) :
    mapLookup (mapDelete m k) k = none := by
  rw [mapLookup_eq_none_iff]
  intro hk
  rcases List.mem_map.mp hk with ⟨p, hp, hfst⟩
  have := List.of_mem_filter hp
  simp [hfst] at this

theorem mem_mapDelete {m : List (Int × Ref)} {k : Int} {p : Int × Ref}
    (hp : p ∈ mapDelete m k) : p ∈ m ∧ p.1 ≠ k := by
  refine ⟨List.mem_of_mem_filter hp, ?_⟩
  have := List.of_mem_filter hp
  simpa using this

theorem mem_mapDelete_of_mem {m : List (Int × Ref)} {k : Int} {p : Int × Ref}
    (hp : p ∈ m) (hne : p.1 ≠ k) : p ∈ mapDelete m k := by
  exact List.mem_filter.mpr ⟨hp, by simpa using hne⟩

theorem length_mapDelete_of_mem {m : List (Int × Ref)} {k : Int} {r : Ref}
    (hnd : (m.map Prod.fst).Nodup) (hm : (k, r) ∈ m) :
    (mapDelete m k).length + 1 = m.length := by
  induction m with
  | nil => simp at hm
  | cons p t ih =>
    rw [List.map_cons, List.nodup_cons] at hnd
    rcases List.mem_cons.mp hm with h | h
    · have hk : k ∉ t.map Prod.fst := by rw [← h] at hnd; exact hnd.1
      have heq : mapDelete t k = t := by
        apply List.filter_eq_self.mpr
        intro q hq
        simp only [decide_eq_true_eq]
        intro hc
        exact hk (List.mem_map.mpr ⟨q, hq, hc⟩)
      have hp1 : p.1 = k := by rw [← h]
      have hcond : (decide (p.1 ≠ k)) = false := by simp [hp1]
      simp only [mapDelete, List.filter_cons, hcond, Bool.false_eq_true, if_false]
      have heq' : List.filter (fun p => decide (p.1 ≠ k)) t = t := heq
      rw [heq']
      simp
    · have hpk : p.1 ≠ k := by
        intro hc
        exact hnd.1 (hc ▸ List.mem_map.mpr ⟨(k, r), h, rfl⟩)
      have hrec := ih hnd.2 h
      have hcond : (decide (p.1 ≠ k)) = true := by simp [hpk]
      simp only [mapDelete] at hrec
      simp only [mapDelete, List.filter_cons, hcond, if_true, List.length_cons]
      omega

theorem indexDelete_true_iff (idx : SpatialIndex) (r : Ref) :
    (indexDelete idx r).1 = true ↔ ∃ c, (r, c) ∈ idx.entries := by
  unfold indexDelete
  by_cases h : idx.entries.any (fun e => e.1 = r)
  · rw [if_pos h]
    constructor
    · intro _
      rcases List.any_eq_true.mp h with ⟨e, he, hr⟩
      have her : e.1 = r := by simpa using hr
      refine ⟨e.2, ?_⟩
      rw [← her]
      exact he
    · intro _; rfl
  · rw [if_neg h]
    constructor
    · intro hc; simp at hc
    · intro ⟨c, hc⟩
      exact absurd (List.any_eq_true.mpr ⟨(r, c), hc, by simp⟩) h

theorem length_removeRef_of_mem {l : List (Ref × Location)} {r : Ref} {c : Location}
    (hm : (r, c) ∈ l) : (removeRef l r).length + 1 = l.length := by
  induction l with
  | nil => simp at hm
  | cons e t ih =>
    by_cases he : e.1 = r
    · simp [removeRef, he]
    · have : (r, c) ∈ t := by
        rcases List.mem_cons.mp hm with h | h
        · exact absurd (by rw [← h]) he
        · exact h
      simp [removeRef, he, ih this]

theorem indexDelete_false_store (idx : SpatialIndex) (r : Ref)
    (h : (indexDelete idx r).1 = false) : (indexDelete idx r).2 = idx := by
  unfold indexDelete at h ⊢
  by_cases hc : idx.entries.any (fun e => e.1 = r)
  · rw [if_pos hc] at h
    simp at h
  · rw [if_neg hc]

theorem length_indexDelete_of_true (idx : SpatialIndex) (r : Ref)
    (h : (indexDelete idx r).1 = true) :
    ((indexDelete idx r).2).entries.length + 1 = idx.entries.length := by
  rcases (indexDelete_true_iff idx r).mp h with ⟨c, hc⟩
  unfold indexDelete at h ⊢
  by_cases hany : idx.entries.any (fun e => e.1 = r)
  · rw [if_pos hany]
    exact length_removeRef_of_mem hc
  · rw [if_neg hany] at h
    simp at h

/-! ## Characterization of `Set` -/

theorem heapGet_heapSet_id {f : DriverObj → DriverObj} (hf : ∀ o, (f o).id = o.id)
    (h : Heap) (r r' : Ref) :
    (heapGet (heapSet h r f) r').map DriverObj.id = (heapGet h r').map DriverObj.id := by
  by_cases hrr : r' = r
  · subst hrr
    rw [heapGet_heapSet_self]
    cases heapGet h r' with
    | none => rfl
    | some o => simp [hf]
  · rw [heapGet_heapSet_ne _ _ hrr]

theorem setTail_none (s : DriverStorage) (h : Heap) (dref vr : Ref) (now : Int)
    (hd : heapGet h dref = none) :
    setTail s h dref vr now =
      ⟨.panicked, s,
        heapSet h dref (fun o =>
          { o with lastLocation :=
              ((heapGet h vr).map (fun o => o.lastLocation)).getD ⟨0, 0⟩ })⟩ := by
  simp only [setTail]
  rw [heapGet_heapSet_self, hd]
  rfl

theorem setTail_nilcache (s : DriverStorage) (h : Heap) (dref vr : Ref) (now : Int)
    (d : DriverObj) (hd : heapGet h dref = some d) (hc : d.locations = none) :
    setTail s h dref vr now =
      ⟨.panicked, s,
        heapSet h dref (fun o =>
          { o with lastLocation :=
              ((heapGet h vr).map (fun o => o.lastLocation)).getD ⟨0, 0⟩ })⟩ := by
  simp only [setTail]
  rw [heapGet_heapSet_self, hd]
  rw [Option.map_some']
  dsimp only
  rw [hc]

theorem setTail_ok_spec (s : DriverStorage) (h : Heap) (dref vr : Ref) (now : Int)
    {d v : DriverObj} {cache : LRU}
    (hd : heapGet h dref = some d) (hc : d.locations = some cache)
    (hv : heapGet h vr = some v) :
    (setTail s h dref vr now).res = .ok ∧
    (setTail s h dref vr now).store =
      { s with drivers := mapInsert s.drivers v.id vr } ∧
    ∃ o, heapGet (setTail s h dref vr now).heap vr = some o ∧
      o.id = v.id ∧ o.lastLocation = v.lastLocation := by
  by_cases hvd : dref = vr
  · subst hvd
    have hdv : d = v := by rw [hd] at hv; exact Option.some.inj hv
    subst hdv
    simp only [setTail]
    rw [heapGet_heapSet_self, hd, Option.map_some']
    dsimp only
    rw [hc]
    simp only [heapGet_heapSet_self, hd, Option.map_some', Option.getD_some]
    exact ⟨trivial, trivial, _, rfl, rfl, rfl⟩
  · have hvne : vr ≠ dref := fun hcontra => hvd hcontra.symm
    have hx : ∀ (X : Heap) (f : DriverObj → DriverObj),
        heapGet (heapSet X dref f) vr = heapGet X vr :=
      fun X f => heapGet_heapSet_ne X f hvne
    simp only [setTail]
    rw [heapGet_heapSet_self, hd, Option.map_some']
    dsimp only
    rw [hc]
    simp only [hx, hv, Option.map_some', Option.getD_some]
    exact ⟨trivial, trivial, v, rfl, rfl, rfl⟩

theorem setTail_ok_eq (s : DriverStorage) (h : Heap) (dref vr : Ref) (now : Int)
    {d : DriverObj} {cache : LRU}
    (hd : heapGet h dref = some d) (hc : d.locations = some cache) :
    (setTail s h dref vr now).res = .ok ∧
    (setTail s h dref vr now).store.locations = s.locations ∧
    (setTail s h dref vr now).store.lruSize = s.lruSize ∧
    ∃ key, (setTail s h dref vr now).store.drivers = mapInsert s.drivers key vr := by
  simp only [setTail]
  rw [heapGet_heapSet_self, hd, Option.map_some']
  dsimp only
  rw [hc]
  exact ⟨rfl, rfl, rfl, _, rfl⟩

theorem setTail_ok_inv (s : DriverStorage) (h : Heap) (dref vr : Ref) (now : Int)
    (hres : (setTail s h dref vr now).res = .ok) :
    ∃ d cache, heapGet h dref = some d ∧ d.locations = some cache := by
  cases hdg : heapGet h dref with
  | none =>
    rw [setTail_none s h dref vr now hdg] at hres
    exact absurd hres (by simp)
  | some d =>
    cases hcg : d.locations with
    | none =>
      rw [setTail_nilcache s h dref vr now d hdg hcg] at hres
      exact absurd hres (by simp)
    | some cache => exact ⟨d, cache, rfl, hcg⟩

theorem setTail_not_ok_store (s : DriverStorage) (h : Heap) (dref vr : Ref) (now : Int)
    (hres : (setTail s h dref vr now).res ≠ .ok) :
    (setTail s h dref vr now).store = s := by
  cases hdg : heapGet h dref with
  | none => rw [setTail_none s h dref vr now hdg]
  | some d =>
    cases hcg : d.locations with
    | none => rw [setTail_nilcache s h dref vr now d hdg hcg]
    | some cache =>
      exact absurd (setTail_ok_eq s h dref vr now hdg hcg).1 hres

theorem setTail_res_not_error (s : DriverStorage) (h : Heap) (dref vr : Ref) (now : Int) :
    (setTail s h dref vr now).res.isError = false := by
  cases hdg : heapGet h dref with
  | none => rw [setTail_none s h dref vr now hdg]; rfl
  | some d =>
    cases hcg : d.locations with
    | none => rw [setTail_nilcache s h dref vr now d hdg hcg]; rfl
    | some cache =>
      rw [(setTail_ok_eq s h dref vr now hdg hcg).1]
      rfl

theorem setTail_store_locations (s : DriverStorage) (h : Heap) (dref vr : Ref) (now : Int) :
    (setTail s h dref vr now).store.locations = s.locations := by
  cases hdg : heapGet h dref with
  | none => rw [setTail_none s h dref vr now hdg]
  | some d =>
    cases hcg : d.locations with
    | none => rw [setTail_nilcache s h dref vr now d hdg hcg]
    | some cache => exact (setTail_ok_eq s h dref vr now hdg hcg).2.1

theorem setTail_heap_ids (s : DriverStorage) (h : Heap) (dref vr : Ref) (now : Int)
    (r : Ref) :
    (heapGet (setTail s h dref vr now).heap r).map DriverObj.id
      = (heapGet h r).map DriverObj.id := by
  cases hdg : heapGet h dref with
  | none =>
    rw [setTail_none s h dref vr now hdg]
    refine heapGet_heapSet_id ?_ h dref r
    intro o; rfl
  | some d =>
    cases hcg : d.locations with
    | none =>
      rw [setTail_nilcache s h dref vr now d hdg hcg]
      refine heapGet_heapSet_id ?_ h dref r
      intro o; rfl
    | some cache =>
      simp only [setTail]
      rw [heapGet_heapSet_self, hdg, Option.map_some']
      dsimp only
      rw [hcg]
      dsimp only
      rw [heapGet_heapSet_id, heapGet_heapSet_id, heapGet_heapSet_id] <;>
        exact fun o => rfl

/-- `Set` on an absent ID with a non-positive history capacity: the wrapped
LRU error is returned and the storage is untouched (only the caller's fresh
`Driver` allocation remains on the heap). -/
theorem setOp_fresh_err (s : DriverStorage) (h : Heap) (id : Int) (loc : Location)
    (exp now : Int) (hn : mapLookup s.drivers id = none) (hsz : s.lruSize ≤ 0) :
    setOp s h id loc exp now =
      ⟨.errored "could not create LRU: must provide a positive size", s,
        h ++ [⟨id, loc, exp, none⟩]⟩ := by
  simp only [setOp, lruNew]
  rw [hn, if_pos hsz]
  rfl

/-- `Set` on an absent ID with a positive capacity reduces to the shared
tail acting on the freshly allocated driver (whose cache has just been
set), after the index insertion. -/
theorem setOp_fresh_ok (s : DriverStorage) (h : Heap) (id : Int) (loc : Location)
    (exp now : Int) (hn : mapLookup s.drivers id = none) (hsz : 0 < s.lruSize) :
    setOp s h id loc exp now =
      setTail { s with locations := indexInsert s.locations h.length loc }
        (h ++ [⟨id, loc, exp, some ⟨s.lruSize, []⟩⟩]) h.length h.length now := by
  simp only [setOp, lruNew]
  rw [hn, if_neg (by omega)]
  dsimp only
  rw [heapSet_append_self]

/-- `Set` on a present ID reduces to the shared tail acting on the mapped
object `dref` and the fresh argument object. -/
theorem setOp_update (s : DriverStorage) (h : Heap) (id : Int) (loc : Location)
    (exp now : Int) {dref : Ref} (hd : mapLookup s.drivers id = some dref) :
    setOp s h id loc exp now =
      setTail s (h ++ [⟨id, loc, exp, none⟩]) dref h.length now := by
  simp only [setOp]
  rw [hd]

/-! ## The reachability invariant -/

/-- Invariant maintained by every reachable state: map keys are
duplicate-free, every map entry points at a live heap object whose `ID`
equals its key, and map and index have the same cardinality.  (Note that it
does *not* say the map object and the index object agree — the source
violates that.) -/
def goodState (st : DriverStorage × Heap) : Prop :=
  ((st.1.drivers.map Prod.fst).Nodup ∧
    ∀ p ∈ st.1.drivers, (heapGet st.2 p.2).map DriverObj.id = some p.1) ∧
  st.1.drivers.length = st.1.locations.entries.length

theorem heapIds_append (h : Heap) (l : Heap) (r : Ref) {i : Int}
    (hr : (heapGet h r).map DriverObj.id = some i) :
    (heapGet (h ++ l) r).map DriverObj.id = some i := by
  cases hg : heapGet h r with
  | none => rw [hg] at hr; simp at hr
  | some o =>
    rw [heapGet_append_of_some l hg]
    rw [hg] at hr
    exact hr

theorem goodState_set (s : DriverStorage) (h : Heap) (id : Int) (loc : Location)
    (exp now : Int) (hg : goodState (s, h)) :
    goodState ((setOp s h id loc exp now).store, (setOp s h id loc exp now).heap) := by
  obtain ⟨⟨hnd, hkm⟩, hcnt⟩ := hg
  cases hlook : mapLookup s.drivers id with
  | none =>
    by_cases hsz : 0 < s.lruSize
    · rw [setOp_fresh_ok s h id loc exp now hlook hsz]
      have hvd : heapGet (h ++ [(⟨id, loc, exp, some ⟨s.lruSize, []⟩⟩ : DriverObj)]) h.length
          = some ⟨id, loc, exp, some ⟨s.lruSize, []⟩⟩ := heapGet_append_self h _
      obtain ⟨hres, hstore, o, hgo, hoid, holoc⟩ :=
        setTail_ok_spec { s with locations := indexInsert s.locations h.length loc }
          (h ++ [⟨id, loc, exp, some ⟨s.lruSize, []⟩⟩]) h.length h.length now hvd rfl hvd
      rw [hstore]
      refine ⟨⟨?_, ?_⟩, ?_⟩
      · show ((mapInsert s.drivers id h.length).map Prod.fst).Nodup
        rw [keys_mapInsert_of_none _ hlook]
        have hid : id ∉ s.drivers.map Prod.fst := (mapLookup_eq_none_iff _ _).mp hlook
        simp [List.nodup_append, hnd, hid]
      · intro p hp
        rcases mem_mapInsert hp with hpe | hpm
        · subst hpe
          rw [setTail_heap_ids]
          rw [hvd]
          rfl
        · rw [setTail_heap_ids]
          exact heapIds_append h _ p.2 (hkm p hpm)
      · show (mapInsert s.drivers id h.length).length = (indexInsert s.locations h.length loc).entries.length
        rw [length_mapInsert_of_none _ hlook]
        simp [indexInsert, hcnt]
    · rw [setOp_fresh_err s h id loc exp now hlook (by omega)]
      refine ⟨⟨hnd, ?_⟩, hcnt⟩
      intro p hp
      exact heapIds_append h _ p.2 (hkm p hp)
  | some dref =>
    rw [setOp_update s h id loc exp now hlook]
    by_cases hres : (setTail s (h ++ [⟨id, loc, exp, none⟩]) dref h.length now).res = .ok
    · obtain ⟨d, cache, hd, hc⟩ := setTail_ok_inv _ _ _ _ _ hres
      have hv : heapGet (h ++ [(⟨id, loc, exp, none⟩ : DriverObj)]) h.length
          = some ⟨id, loc, exp, none⟩ := heapGet_append_self h _
      obtain ⟨_, hstore, o, hgo, hoid, holoc⟩ :=
        setTail_ok_spec s (h ++ [⟨id, loc, exp, none⟩]) dref h.length now hd hc hv
      rw [hstore]
      refine ⟨⟨?_, ?_⟩, ?_⟩
      · show ((mapInsert s.drivers id h.length).map Prod.fst).Nodup
        rw [keys_mapInsert_of_some _ hlook]
        exact hnd
      · intro p hp
        rcases mem_mapInsert hp with hpe | hpm
        · subst hpe
          rw [setTail_heap_ids]
          rw [hv]
          rfl
        · rw [setTail_heap_ids]
          exact heapIds_append h _ p.2 (hkm p hpm)
      · show (mapInsert s.drivers id h.length).length = s.locations.entries.length
        rw [length_mapInsert_of_some _ hlook]
        exact hcnt
    · rw [setTail_not_ok_store _ _ _ _ _ hres]
      refine ⟨⟨hnd, ?_⟩, hcnt⟩
      intro p hp
      rw [setTail_heap_ids]
      exact heapIds_append h _ p.2 (hkm p hp)

theorem keys_mapDelete_sublist (m : List (Int × Ref)) (k : Int) :
    List.Sublist ((mapDelete m k).map Prod.fst) (m.map Prod.fst) :=
  (List.filter_sublist m).map Prod.fst

theorem goodState_del (s : DriverStorage) (h : Heap) (id : Int)
    (hg : goodState (s, h)) : goodState ((deleteOp s h id).store, h) := by
  obtain ⟨⟨hnd, hkm⟩, hcnt⟩ := hg
  dsimp only at hnd hkm hcnt
  simp only [deleteOp]
  cases hlook : mapLookup s.drivers id with
  | none => exact ⟨⟨hnd, hkm⟩, hcnt⟩
  | some dref =>
    dsimp only
    cases hget : heapGet h dref with
    | none => exact ⟨⟨hnd, hkm⟩, hcnt⟩
    | some o =>
      dsimp only
      by_cases hdel : (indexDelete s.locations dref).1 = true
      · rw [if_pos hdel]
        have hmem : (id, dref) ∈ s.drivers := mapLookup_mem hlook
        have hoid : o.id = id := by
          have hx := hkm _ hmem
          rw [hget] at hx
          simpa using hx
        refine ⟨⟨?_, ?_⟩, ?_⟩
        · exact hnd.sublist (keys_mapDelete_sublist s.drivers o.id)
        · intro p hp
          exact hkm p (mem_mapDelete hp).1
        · have h1 := length_mapDelete_of_mem hnd (hoid ▸ hmem : (o.id, dref) ∈ s.drivers)
          have h2 := length_indexDelete_of_true s.locations dref hdel
          show (mapDelete s.drivers o.id).length = ((indexDelete s.locations dref).2).entries.length
          omega
      · rw [if_neg hdel]
        exact ⟨⟨hnd, hkm⟩, hcnt⟩

theorem goodState_sweepStep (h : Heap) (now : Int) (acc : DriverStorage) (p : Int × Ref)
    (hg : goodState (acc, h)) (hpmem : p ∈ acc.drivers) :
    goodState (sweepStep h now acc p, h) ∧
    ∀ q ∈ acc.drivers, q.1 ≠ p.1 → q ∈ (sweepStep h now acc p).drivers := by
  obtain ⟨⟨hnd, hkm⟩, hcnt⟩ := hg
  dsimp only at hnd hkm hcnt
  simp only [sweepStep]
  cases hget : heapGet h p.2 with
  | none => exact ⟨⟨⟨hnd, hkm⟩, hcnt⟩, fun q hq _ => hq⟩
  | some o =>
    dsimp only
    have hoid : o.id = p.1 := by
      have hx := hkm _ hpmem
      rw [hget] at hx
      simpa using hx
    cases hexp : driverExpired o now with
    | false => exact ⟨⟨⟨hnd, hkm⟩, hcnt⟩, fun q hq _ => hq⟩
    | true =>
      rw [if_pos rfl]
      by_cases hdel : (indexDelete acc.locations p.2).1 = true
      · rw [if_pos hdel]
        have hmem : (o.id, p.2) ∈ acc.drivers := by
          rw [hoid]
          exact hpmem
        refine ⟨⟨⟨?_, ?_⟩, ?_⟩, ?_⟩
        · exact hnd.sublist (keys_mapDelete_sublist acc.drivers o.id)
        · intro q hq
          exact hkm q (mem_mapDelete hq).1
        · have h1 := length_mapDelete_of_mem hnd hmem
          have h2 := length_indexDelete_of_true acc.locations p.2 hdel
          show (mapDelete acc.drivers o.id).length = ((indexDelete acc.locations p.2).2).entries.length
          omega
        · intro q hq hqp
          exact mem_mapDelete_of_mem hq (by rw [hoid]; exact hqp)
      · rw [if_neg hdel]
        exact ⟨⟨⟨hnd, hkm⟩, hcnt⟩, fun q hq _ => hq⟩

theorem goodState_sweep_fold (h : Heap) (now : Int) :
    ∀ (l : List (Int × Ref)) (acc : DriverStorage),
      goodState (acc, h) → (∀ p ∈ l, p ∈ acc.drivers) → (l.map Prod.fst).Nodup →
      goodState (l.foldl (sweepStep h now) acc, h) := by
  intro l
  induction l with
  | nil => intro acc hg _ _; exact hg
  | cons p t ih =>
    intro acc hg hsub hlnd
    rw [List.foldl_cons]
    rw [List.map_cons, List.nodup_cons] at hlnd
    obtain ⟨hstep, hmem⟩ :=
      goodState_sweepStep h now acc p hg (hsub p (List.mem_cons_self p t))
    refine ih (sweepStep h now acc p) hstep ?_ hlnd.2
    intro q hq
    refine hmem q (hsub q (List.mem_cons_of_mem p hq)) ?_
    intro hc
    exact hlnd.1 (hc ▸ List.mem_map.mpr ⟨q, hq, rfl⟩)

theorem goodState_sweep (s : DriverStorage) (h : Heap) (now : Int)
    (hg : goodState (s, h)) : goodState (deleteExpired s h now, h) :=
  goodState_sweep_fold h now s.drivers s hg (fun _ hp => hp) hg.1.1

/-- Every reachable state satisfies the invariant. -/
theorem reachable_goodState {st : DriverStorage × Heap} (hr : Reachable st) :
    goodState st := by
  induction hr with
  | init lruSize => exact ⟨⟨List.nodup_nil, by simp [newStorage]⟩, rfl⟩
  | set id loc exp now _ ih => exact goodState_set _ _ id loc exp now ih
  | del id _ ih => exact goodState_del _ _ id ih
  | sweep now _ ih => exact goodState_sweep _ _ now ih

/-! ## The haversine `Distance` utility (`src/storage/storage.go`)

The `float64` arithmetic of the source is embedded as exact real
arithmetic; `math.Sin`/`math.Cos`/`math.Asin`/`math.Sqrt` become their real
counterparts. -/

/-- `hsin(θ) = sin²(θ/2)` from the source (`math.Pow(math.Sin(theta/2), 2)`). -/
noncomputable def hsin (θ : ℝ) : ℝ := Real.sin (θ / 2) ^ 2

/-- The intermediate value `h` computed inside `Distance` — the argument
handed to `math.Sqrt` and whose square root is handed to `math.Asin`. -/
noncomputable def hval (lat1 lon1 lat2 lon2 : ℝ) : ℝ :=
  hsin (lat2 * Real.pi / 180 - lat1 * Real.pi / 180) +
    Real.cos (lat1 * Real.pi / 180) * Real.cos (lat2 * Real.pi / 180) *
      hsin (lon2 * Real.pi / 180 - lon1 * Real.pi / 180)

/-- `Distance` from the source: great-circle haversine distance in meters,
Earth radius 6378100 m, inputs in degrees converted to radians. -/
noncomputable def Distance (lat1 lon1 lat2 lon2 : ℝ) : ℝ :=
  2 * 6378100 * Real.arcsin (Real.sqrt (hval lat1 lon1 lat2 lon2))

theorem hsin_sub_comm (x y : ℝ) : hsin (x - y) = hsin (y - x) := by
  unfold hsin
  rw [show x - y = -(y - x) by ring, neg_div, Real.sin_neg]
  ring

theorem hsin_eq_half_sub (x : ℝ) : hsin x = 1 / 2 - Real.cos x / 2 := by
  unfold hsin
  rw [Real.sin_sq_eq_half_sub]
  have h2 : 2 * (x / 2) = x := by ring
  rw [h2]

theorem hsin_nonneg (x : ℝ) : 0 ≤ hsin x := by
  unfold hsin
  positivity

theorem hsin_le_one (x : ℝ) : hsin x ≤ 1 := by
  unfold hsin
  exact Real.sin_sq_le_one _

/-- Core bound: for any latitudes `a`, `b` (radians) and any angle `t`,
the haversine combination lies in `[0, 1]`. -/
theorem haversine_core_bounds (a b t : ℝ) :
    0 ≤ hsin (b - a) + Real.cos a * Real.cos b * hsin t ∧
    hsin (b - a) + Real.cos a * Real.cos b * hsin t ≤ 1 := by
  have hA : hsin (b - a) = 1 / 2 - Real.cos (b - a) / 2 := hsin_eq_half_sub _
  have hB0 : 0 ≤ hsin t := hsin_nonneg t
  have hB1 : hsin t ≤ 1 := hsin_le_one t
  have hsub : Real.cos (b - a) = Real.cos b * Real.cos a + Real.sin b * Real.sin a :=
    Real.cos_sub b a
  have hadd : Real.cos (b + a) = Real.cos b * Real.cos a - Real.sin b * Real.sin a :=
    Real.cos_add b a
  have hsub_le : Real.cos (b - a) ≤ 1 := Real.cos_le_one _
  have hsub_ge : -1 ≤ Real.cos (b - a) := Real.neg_one_le_cos _
  have hadd_le : Real.cos (b + a) ≤ 1 := Real.cos_le_one _
  have hadd_ge : -1 ≤ Real.cos (b + a) := Real.neg_one_le_cos _
  rcases le_or_lt 0 (Real.cos a * Real.cos b) with hc | hc
  · constructor
    · have h1 : 0 ≤ Real.cos a * Real.cos b * hsin t := mul_nonneg hc hB0
      rw [hA]
      linarith
    · have h1 : Real.cos a * Real.cos b * hsin t ≤ Real.cos a * Real.cos b := by
        nlinarith
      rw [hA]
      nlinarith
  · constructor
    · have h1 : Real.cos a * Real.cos b ≤ Real.cos a * Real.cos b * hsin t := by
        nlinarith
      rw [hA]
      nlinarith
    · have h1 : Real.cos a * Real.cos b * hsin t ≤ 0 := by
        nlinarith
      rw [hA]
      linarith

theorem hval_bounds (lat1 lon1 lat2 lon2 : ℝ) :
    0 ≤ hval lat1 lon1 lat2 lon2 ∧ hval lat1 lon1 lat2 lon2 ≤ 1 :=
  haversine_core_bounds (lat1 * Real.pi / 180) (lat2 * Real.pi / 180)
    (lon2 * Real.pi / 180 - lon1 * Real.pi / 180)

theorem hval_comm (lat1 lon1 lat2 lon2 : ℝ) :
    hval lat1 lon1 lat2 lon2 = hval lat2 lon2 lat1 lon1 := by
  unfold hval
  rw [hsin_sub_comm (lat2 * Real.pi / 180) (lat1 * Real.pi / 180),
    hsin_sub_comm (lon2 * Real.pi / 180) (lon1 * Real.pi / 180)]
  ring

theorem hval_zero : hval 0 0 0 0 = 0 := by
  unfold hval hsin
  norm_num

/-! ## Concrete scenario used by the counterexamples -/

/-- First call: `New(10)` then `Set(&Driver{ID: 1, LastLocation: (1,1),
Expiration: 5})` at time 100.  The fresh object lives at heap address 0. -/
def exSet1 : SetOut := setOp (newStorage 10) [] 1 ⟨1, 1⟩ 5 100

/-- Second call: `Set(&Driver{ID: 1, LastLocation: (2,2), Expiration: 5})`
at time 200 — an update of the existing driver 1.  The fresh argument
object lives at heap address 1. -/
def exSet2 : SetOut := setOp exSet1.store exSet1.heap 1 ⟨2, 2⟩ 5 200

/-! ## The claims -/

/-- Claim C1: refuted on the source (the claim's own invariant is the
spec's stated intent, so this is a code bug).  After a second `Set` for the
same ID, both `Set` calls succeed, yet the drivers map holds the second
object (address 1) while the spatial index still holds only the first
object (address 0): the map's entity is absent from the index and the
index's entity is orphaned, although both carry ID 1.  The culprit is
`s.drivers[driver.ID] = driver` storing the new object after having mutated
the old one. -/
theorem bijection_violated_on_update :
    exSet1.res = .ok ∧ exSet2.res = .ok ∧
    exSet2.store.drivers = [(1, 1)] ∧
    exSet2.store.locations.entries.map Prod.fst = [0] ∧
    (heapGet exSet2.heap 1).map DriverObj.id = some 1 ∧
    (heapGet exSet2.heap 0).map DriverObj.id = some 1 ∧
    (0 : Ref) ≠ (1 : Ref) := by
  decide

/-- Claim C2: refuted on the source (code bug, same root cause as C1).
After an update `Set`, `Get(1)` returns the second object (address 1),
whose `Locations` cache is the caller-supplied nil — not the cache
allocated at the first Upsert.  That original cache still hangs off the
first object (address 0), no longer reachable via `Get`, and it is the one
that received both history appends. -/
theorem history_cache_detached_on_update :
    exSet2.res = .ok ∧
    getOp exSet2.store 1 = some 1 ∧
    (heapGet exSet2.heap 1).map DriverObj.locations = some none ∧
    (heapGet exSet2.heap 0).map DriverObj.locations =
      some (some ⟨10, [(100, ⟨1, 1⟩), (200, ⟨2, 2⟩)]⟩) := by
  decide

/-- Claim C3: confirmed.  `Delete(id)` returns `ErrDriverDoesNotExist`
exactly when `id` is absent, and then mutates nothing; a successful delete
makes `Get(id)` fail; and when the map contains `id` but the index cannot
find the mapped object, `Delete` returns the distinct `could not remove
item` error, does not mutate the store, and does not succeed.  The
hypothesis is the reachable-state well-formedness of map entries. -/
theorem delete_error_contract (s : DriverStorage) (h : Heap) (id : Int)
    (hwf : ∀ p ∈ s.drivers, (heapGet h p.2).map DriverObj.id = some p.1) :
    ((deleteOp s h id).res = .notFound ↔ mapLookup s.drivers id = none) ∧
    ((deleteOp s h id).res = .notFound → (deleteOp s h id).store = s) ∧
    ((deleteOp s h id).res = .ok → getOp (deleteOp s h id).store id = none) ∧
    (∀ dref, mapLookup s.drivers id = some dref →
      (indexDelete s.locations dref).1 = false →
        (deleteOp s h id).res = .removeFailed ∧
        (deleteOp s h id).store = s ∧
        (deleteOp s h id).res ≠ .notFound ∧
        (deleteOp s h id).res ≠ .ok) := by
  simp only [deleteOp]
  cases hlook : mapLookup s.drivers id with
  | none =>
    refine ⟨by simp, fun _ => rfl, by simp, ?_⟩
    intro dref hd
    simp at hd
  | some dref0 =>
    dsimp only
    have hmem : (id, dref0) ∈ s.drivers := mapLookup_mem hlook
    cases hget : heapGet h dref0 with
    | none =>
      have hx := hwf _ hmem
      rw [hget] at hx
      exact absurd hx (by simp)
    | some o =>
      dsimp only
      have hoid : o.id = id := by
        have hx := hwf _ hmem
        rw [hget] at hx
        simpa using hx
      by_cases hdel : (indexDelete s.locations dref0).1 = true
      · rw [if_pos hdel]
        refine ⟨by simp, by simp, ?_, ?_⟩
        · intro _
          show mapLookup (mapDelete s.drivers o.id) id = none
          rw [hoid]
          exact mapLookup_mapDelete_self s.drivers id
        · intro dref hd hfalse
          injection hd with hd'
          subst hd'
          rw [hfalse] at hdel
          simp at hdel
      · rw [if_neg hdel]
        exact ⟨by simp, by simp, by simp, fun dref _ _ => ⟨rfl, rfl, by simp, by simp⟩⟩

/-- Witness for C3 at a concrete reachable store. -/
theorem delete_error_contract_witness :
    (deleteOp exSet1.store exSet1.heap 2).res = .notFound ↔
      mapLookup exSet1.store.drivers 2 = none :=
  (delete_error_contract exSet1.store exSet1.heap 2 (by decide)).1

/-- Claim C4: refuted on the source (code bug, same root cause as C1).
In the post-update state, driver 1 is expired at time 300 (expiration 5 is
non-sentinel and in the past), yet `DeleteExpired` removes it from neither
the map nor the index: the index `Delete` targets the map's object, which
was never inserted into the index, so it fails and the map entry is kept. -/
theorem sweep_misses_expired_after_update :
    (heapGet exSet2.heap 1).map (fun o => driverExpired o 300) = some true ∧
    (heapGet exSet2.heap 1).map DriverObj.expiration = some 5 ∧
    mapLookup (deleteExpired exSet2.store exSet2.heap 300).drivers 1 = some 1 ∧
    (deleteExpired exSet2.store exSet2.heap 300).locations = exSet2.store.locations := by
  decide

/-- Claim C5: confirmed.  Whenever `Set` returns nil, an immediately
following `Get` for that ID succeeds and yields an object with the same ID
and the last position just passed to `Set`. -/
theorem set_get_roundtrip (s : DriverStorage) (h : Heap) (id : Int) (loc : Location)
    (exp now : Int) (hok : (setOp s h id loc exp now).res = .ok) :
    ∃ r o, getOp (setOp s h id loc exp now).store id = some r ∧
      heapGet (setOp s h id loc exp now).heap r = some o ∧
      o.id = id ∧ o.lastLocation = loc := by
  cases hlook : mapLookup s.drivers id with
  | none =>
    by_cases hsz : 0 < s.lruSize
    · rw [setOp_fresh_ok s h id loc exp now hlook hsz]
      have hvd : heapGet (h ++ [(⟨id, loc, exp, some ⟨s.lruSize, []⟩⟩ : DriverObj)]) h.length
          = some ⟨id, loc, exp, some ⟨s.lruSize, []⟩⟩ := heapGet_append_self h _
      obtain ⟨hres, hstore, o, hgo, hoid, holoc⟩ :=
        setTail_ok_spec { s with locations := indexInsert s.locations h.length loc }
          (h ++ [⟨id, loc, exp, some ⟨s.lruSize, []⟩⟩]) h.length h.length now hvd rfl hvd
      refine ⟨h.length, o, ?_, hgo, hoid, holoc⟩
      rw [hstore]
      simp only [getOp]
      exact mapLookup_mapInsert_self _ _ _
    · rw [setOp_fresh_err s h id loc exp now hlook (by omega)] at hok
      exact absurd hok (by simp)
  | some dref =>
    rw [setOp_update s h id loc exp now hlook] at hok ⊢
    obtain ⟨d, cache, hd, hc⟩ := setTail_ok_inv _ _ _ _ _ hok
    have hv : heapGet (h ++ [(⟨id, loc, exp, none⟩ : DriverObj)]) h.length
        = some ⟨id, loc, exp, none⟩ := heapGet_append_self h _
    obtain ⟨_, hstore, o, hgo, hoid, holoc⟩ :=
      setTail_ok_spec s (h ++ [⟨id, loc, exp, none⟩]) dref h.length now hd hc hv
    refine ⟨h.length, o, ?_, hgo, hoid, holoc⟩
    rw [hstore]
    simp only [getOp]
    exact mapLookup_mapInsert_self _ _ _

/-- Witness for C5 at a concrete input. -/
theorem set_get_roundtrip_witness :
    ∃ r o, getOp exSet1.store 1 = some r ∧
      heapGet exSet1.heap r = some o ∧
      o.id = 1 ∧ o.lastLocation = ⟨1, 1⟩ :=
  set_get_roundtrip (newStorage 10) [] 1 ⟨1, 1⟩ 5 100 (by decide)

/-- Claim C6: confirmed against the spec-modelled index.  On every
reachable state, `Nearest(point, k)` returns `min(k, population)` drivers
(population being the number of entries in the drivers map), the returned
pointers are exactly the entries of the k-nearest query in order, and
those entries are sorted by ascending native index distance to the point. -/
theorem nearest_count_and_order (s : DriverStorage) (h : Heap)
    (hr : Reachable (s, h)) (k : Nat) (p : Location) :
    (storageNearest s k p).length = min k s.drivers.length ∧
    List.Pairwise (distLE p) (nearestEntries s k p) ∧
    storageNearest s k p = (nearestEntries s k p).map Prod.fst := by
  obtain ⟨_, hcnt⟩ := reachable_goodState hr
  dsimp only at hcnt
  refine ⟨?_, ?_, rfl⟩
  · unfold storageNearest nearestEntries
    rw [List.length_map, List.length_take, List.length_insertionSort, hcnt]
  · unfold nearestEntries
    exact List.Pairwise.sublist (List.take_sublist k _)
      (List.sorted_insertionSort (distLE p) s.locations.entries)

/-- Witness for C6 at a concrete reachable state. -/
theorem nearest_count_and_order_witness :
    (storageNearest exSet1.store 3 ⟨0, 0⟩).length = min 3 exSet1.store.drivers.length ∧
    List.Pairwise (distLE ⟨0, 0⟩) (nearestEntries exSet1.store 3 ⟨0, 0⟩) ∧
    storageNearest exSet1.store 3 ⟨0, 0⟩ =
      (nearestEntries exSet1.store 3 ⟨0, 0⟩).map Prod.fst :=
  nearest_count_and_order exSet1.store exSet1.heap
    (Reachable.set 1 ⟨1, 1⟩ 5 100 (Reachable.init 10)) 3 ⟨0, 0⟩

/-- Claim C7, counterexample: on a store constructed with history capacity
0 — `New` performs no validation and cannot fail — the very first `Set`
returns an error, so `Set` does not "always succeed" and the invalid
capacity is not surfaced at construction. -/
theorem set_errors_on_nonpositive_capacity :
    (setOp (newStorage 0) [] 7 ⟨1, 1⟩ 0 50).res.isError = true := by
  decide

/-- Claim C7 as amended: `Set` never returns an error when the store's
history capacity is positive; with a non-positive capacity the
configuration error surfaces as a `Set` failure on the first insert of an
ID (see the counterexample), not at construction. -/
theorem set_no_error_with_positive_capacity (s : DriverStorage) (h : Heap) (id : Int)
    (loc : Location) (exp now : Int) (hsz : 0 < s.lruSize) :
    (setOp s h id loc exp now).res.isError = false := by
  cases hlook : mapLookup s.drivers id with
  | none =>
    rw [setOp_fresh_ok s h id loc exp now hlook hsz]
    exact setTail_res_not_error _ _ _ _ _
  | some dref =>
    rw [setOp_update s h id loc exp now hlook]
    exact setTail_res_not_error _ _ _ _ _

/-- Witness for the amended C7 at a concrete input. -/
theorem set_no_error_with_positive_capacity_witness :
    (setOp (newStorage 10) [] 1 ⟨1, 1⟩ 5 100).res.isError = false :=
  set_no_error_with_positive_capacity (newStorage 10) [] 1 ⟨1, 1⟩ 5 100 (by decide)

/-- Claim C8: confirmed.  A `Set` for an ID already present never touches
the spatial index: membership, entry count and stored geometry are all
unchanged (the whole index value is equal). -/
theorem update_preserves_index_membership (s : DriverStorage) (h : Heap) (id : Int)
    (loc : Location) (exp now : Int) (dref : Ref)
    (hpresent : mapLookup s.drivers id = some dref) :
    (setOp s h id loc exp now).store.locations = s.locations := by
  rw [setOp_update s h id loc exp now hpresent]
  exact setTail_store_locations _ _ _ _ _

/-- Witness for C8 at a concrete input. -/
theorem update_preserves_index_membership_witness :
    (setOp exSet1.store exSet1.heap 1 ⟨2, 2⟩ 5 200).store.locations =
      exSet1.store.locations :=
  update_preserves_index_membership exSet1.store exSet1.heap 1 ⟨2, 2⟩ 5 200 0 (by decide)

/-- Claim C9: confirmed over the exact-real embedding of the float
formula.  `Distance(0,0,0,0) = 0`; `Distance` is symmetric in its two
points; and the intermediate value `h` always lies in `[0, 1]`, inside the
domains of `math.Sqrt` and `math.Asin`, so the result is never NaN. -/
theorem distance_haversine_properties :
    Distance 0 0 0 0 = 0 ∧
    (∀ lat1 lon1 lat2 lon2 : ℝ,
      Distance lat1 lon1 lat2 lon2 = Distance lat2 lon2 lat1 lon1) ∧
    (∀ lat1 lon1 lat2 lon2 : ℝ,
      0 ≤ hval lat1 lon1 lat2 lon2 ∧ hval lat1 lon1 lat2 lon2 ≤ 1) := by
  refine ⟨?_, ?_, hval_bounds⟩
  · unfold Distance
    rw [hval_zero, Real.sqrt_zero, Real.arcsin_zero, mul_zero]
  · intro lat1 lon1 lat2 lon2
    unfold Distance
    rw [hval_comm]

/-- Claim C10: confirmed.  `Set` returns an error exactly when the ID is
absent and the LRU construction fails (non-positive capacity), and in that
case the storage is completely unchanged — the ID is in neither the map
nor the index — and the heap has only gained the caller's fresh argument
object, no existing entity having been modified. -/
theorem set_atomic_on_error (s : DriverStorage) (h : Heap) (id : Int) (loc : Location)
    (exp now : Int) :
    ((setOp s h id loc exp now).res.isError = true ↔
      mapLookup s.drivers id = none ∧ s.lruSize ≤ 0) ∧
    ((setOp s h id loc exp now).res.isError = true →
      (setOp s h id loc exp now).store = s ∧
      (setOp s h id loc exp now).heap = h ++ [⟨id, loc, exp, none⟩]) := by
  cases hlook : mapLookup s.drivers id with
  | none =>
    by_cases hsz : s.lruSize ≤ 0
    · rw [setOp_fresh_err s h id loc exp now hlook hsz]
      exact ⟨by simp [SetResult.isError, hsz], fun _ => ⟨rfl, rfl⟩⟩
    · rw [setOp_fresh_ok s h id loc exp now hlook (by omega)]
      rw [setTail_res_not_error]
      exact ⟨by simp [hsz], by simp⟩
  | some dref =>
    rw [setOp_update s h id loc exp now hlook]
    rw [setTail_res_not_error]
    exact ⟨by simp, by simp⟩

/-- Witness for C10 at a concrete erroring input. -/
theorem set_atomic_on_error_witness :
    (setOp (newStorage 0) [] 7 ⟨1, 1⟩ 0 50).store = newStorage 0 ∧
    (setOp (newStorage 0) [] 7 ⟨1, 1⟩ 0 50).heap = [] ++ [⟨7, ⟨1, 1⟩, 0, none⟩] :=
  (set_atomic_on_error (newStorage 0) [] 7 ⟨1, 1⟩ 0 50).2 (by decide)

end NearestDots
